import Mathlib

/-!
Verification of the waterfall (masonry) layout component
(src/html5/render/vue/components/scrollable/waterfall.js).

The development shallowly embeds the component logic:

- cells are records of the data-cell attribute, a measured top offset and a
  measured height (geometry is embedded as exact integers; the reflow code
  only compares, adds and subtracts the measured values);
- a column is the ordered list of its cell elements, its bottom is the bottom
  edge of its last element (0 when empty), exactly as the code measures
  lastElementChild.getBoundingClientRect().bottom;
- the reflow pass _reLayoutChildren is embedded step by step: the minimum
  search loop, the candidate collection loop, the sort call, the greedy
  re-insertion loop over document fragments, and the final append of each
  fragment to its column. DOM element movement (appendChild removes a node
  from its current parent before appending) is modelled explicitly on a state
  holding the columns and the per-column fragments;
- the sort call at step 3 passes the comparator function (a, b) =&gt; a &gt; b,
  whose boolean result coerces to 1 or 0 and never to a negative number; per
  the ECMAScript specification such a comparator is not a consistent
  comparison function and the resulting order is implementation-defined
  (V8, for instance, returns the array unchanged). The pass is therefore
  parametric in the sort function; theorems constrain it only where needed;
- the slot classification in _createChildren and the columnGap prop validator
  are embedded over a small model of vnodes and JS values.
-/

namespace Waterfall

open List (Perm)
open scoped List

/-- A cell element, as the reflow code observes it through the DOM: its
data-cell attribute (none when the attribute is missing), and the top offset
and height reported by getBoundingClientRect. -/
structure Cell where
  attr : Option String
  top : Int
  height : Int
deriving DecidableEq, Repr

/-- Sum of leading decimal digits of a character list, used by the numeric
coercion models. -/
def digitsVal (cs : List Char) : Nat :=
  cs.foldl (fun a c => a * 10 + (c.toNat - 48)) 0

/-- All characters are decimal digits. -/
def allDigits (cs : List Char) : Bool :=
  cs.all (fun c => c.isDigit)

/-- Strip leading and trailing whitespace from a character list. -/
def trimWs (cs : List Char) : List Char :=
  ((cs.dropWhile (fun c => c.isWhitespace)).reverse.dropWhile
    (fun c => c.isWhitespace)).reverse

/-- The ECMAScript ToNumber coercion on strings, restricted to
optional-sign decimal integer literals: the empty (or all-whitespace) string
converts to 0, a signed run of digits converts to its value, and anything
else is NaN (returned as none). Fractional, exponent and hexadecimal forms
are not exercised by this component and are not modelled. -/
def jsToNumber (s : String) : Option Int :=
  match trimWs s.toList with
  | [] => some 0
  | '-' :: r => if (!r.isEmpty) && allDigits r then some (-(digitsVal r : Int)) else none
  | '+' :: r => if (!r.isEmpty) && allDigits r then some ((digitsVal r : Int)) else none
  | cs => if allDigits cs then some ((digitsVal cs : Int)) else none

/-- The ECMAScript ToInt32 conversion on an exact integer: reduce modulo
2^32 into the signed 32-bit range. -/
def toInt32 (n : Int) : Int :=
  let m := n % 4294967296
  if m < 2147483648 then m else m - 4294967296

/-- The double bitwise NOT coercion applied to a getAttribute result in
line 188 of waterfall.js. getAttribute yields null for a missing attribute
and ToNumber(null) = 0; a non-numeric string yields NaN and ToInt32(NaN) = 0;
a numeric string wraps to a 32-bit integer. -/
def tildeTilde : Option String → Int
  | none => 0
  | some s =>
    match jsToNumber s with
    | none => 0
    | some n => toInt32 n

/-- The identifier the reflow code derives from a cell element. -/
def cellId (c : Cell) : Int :=
  tildeTilde c.attr

/-- Bottom edge of a cell element, as getBoundingClientRect reports it. -/
def cellBottom (c : Cell) : Int :=
  c.top + c.height

/-- Bottom of a column DOM node: the bottom edge of its last child, or 0 when
the column is empty (waterfall.js line 164). -/
def columnBottom (col : List Cell) : Int :=
  match col.getLast? with
  | some c => cellBottom c
  | none => 0

/-- Number.MAX_SAFE_INTEGER, the initial value of minBottom in step 1. -/
def maxSafeInteger : Int := 9007199254740991

/-- Step 1 of _reLayoutChildren (lines 161-172): scan the per-column bottoms
in index order, keeping the first index achieving the strictly smallest
bottom, starting from Number.MAX_SAFE_INTEGER and index 0. -/
def jsMinPair (bottoms : List Int) : Int × Nat :=
  bottoms.enum.foldl
    (fun p ib => if ib.2 < p.1 then (ib.2, ib.1) else p)
    (maxSafeInteger, 0)

/-- The candidates collected from one column in step 2 (lines 184-193): scan
the cells from the last to the first and keep those whose top edge is
strictly greater than minBottom. -/
def collectColumn (minB : Int) (col : List Cell) : List Cell :=
  col.reverse.filter (fun c => decide (minB < c.top))

/-- Total height of a list of cells; the collection loop subtracts each
collected height from the column bottom tracker, which accumulates to this
sum. -/
def heightsSum (cs : List Cell) : Int :=
  (cs.map (fun c => c.height)).sum

/-- Step 2 of _reLayoutChildren (lines 174-194), processing the columns in
index order from index i: the column at minIdx is skipped; for every other
column the candidates are collected (with the identifier the code computes)
and the column bottom tracker is decremented by their heights. Returns the
ordered list of (identifier, element) map writes together with the updated
bottom trackers. belowCellIds is the first projection of the writes;
belowCells is the map they build, where a later write overwrites an earlier
one with the same identifier. -/
def collectLoop (minB : Int) (minIdx : Nat) :
    Nat → List (List Cell) → List Int → List (Int × Cell) × List Int
  | _, [], bs => ([], bs)
  | _, _ :: _, [] => ([], [])
  | i, col :: cols, b :: bs =>
    let r := collectLoop minB minIdx (i + 1) cols bs
    if i = minIdx then (r.1, b :: r.2)
    else
      (((collectColumn minB col).map (fun c => (tildeTilde c.attr, c))) ++ r.1,
        (b - heightsSum (collectColumn minB col)) :: r.2)

/-- minBottom and minBottomColumnIndex after step 1, for a column state. -/
def reflowMin (cols : List (List Cell)) : Int × Nat :=
  jsMinPair (cols.map columnBottom)

/-- Steps 1-2 of _reLayoutChildren for a column state: the belowCells map
writes in collection order and the bottom trackers after the provisional
removals. -/
def reflowCollect (cols : List (List Cell)) : List (Int × Cell) × List Int :=
  collectLoop (reflowMin cols).1 (reflowMin cols).2 0 cols (cols.map columnBottom)

/-- Reading belowCells[id]: the map holds the value of the last write with
that key (a JS object property assignment overwrites). -/
def mapLookup (m : List (Int × Cell)) (k : Int) : Option Cell :=
  (m.reverse.find? (fun p => p.1 == k)).map (fun p => p.2)

/-- Math.min(...bottoms) for a nonempty list (the code only evaluates it with
one entry per column). The empty case is never reached and is given 0. -/
def jsMathMin : List Int → Int
  | [] => 0
  | x :: xs => xs.foldl min x

/-- The DOM state the re-insertion loop mutates: the column nodes and the
per-column document fragments created in step 1. -/
structure DomState where
  columns : List (List Cell)
  frags : List (List Cell)
deriving DecidableEq, Repr

/-- appendChild of a cell element onto fragment k (line 205): a DOM node has
one parent, so appending first removes the element from whatever parent
currently holds it (a column or a fragment), then appends it at the end of
the fragment. -/
def appendChildFrag (k : Nat) (e : Cell) (s : DomState) : DomState :=
  let cols2 := s.columns.map (fun l => l.erase e)
  let frs2 := s.frags.map (fun l => l.erase e)
  ⟨cols2, frs2.set k (frs2.getD k [] ++ [e])⟩

/-- The loop over belowCellIds calling addToShortestColumn (lines 200-210):
for each identifier, look the candidate up in belowCells, recompute the
minimum bottom tracker, pick the first column index achieving it, append the
element to that column fragment and increase that bottom tracker by the
candidate height. An identifier without a map entry (impossible in a real
run, since every pushed identifier is also written to the map) is skipped. -/
def addLoop (entries : List (Int × Cell)) :
    List Int → List Int → DomState → DomState × List Int
  | [], bots, s => (s, bots)
  | id :: ids, bots, s =>
    match mapLookup entries id with
    | none => addLoop entries ids bots s
    | some c =>
      let k := bots.indexOf (jsMathMin bots)
      addLoop entries ids (bots.set k (bots.getD k 0 + c.height)) (appendChildFrag k c s)

/-- The final loop (lines 211-213): append each fragment to its column. -/
def applyFrags (s : DomState) : List (List Cell) :=
  (s.columns.zip s.frags).map (fun p => p.1 ++ p.2)

/-- All cell elements present in the DOM state, columns then fragments. -/
def domCells (s : DomState) : List Cell :=
  (s.columns ++ s.frags).flatten

/-- One full _reLayoutChildren pass over a column state. The sort of
belowCellIds is a parameter: the source calls Array sort with the comparator
modelled by sortCompare below, which is not a consistent comparison function,
so ECMAScript leaves the resulting order implementation-defined; every engine
returns some reordering of the pool. -/
def reLayoutChildren (sortFn : List Int → List Int) (cols : List (List Cell)) :
    List (List Cell) :=
  let entries := (reflowCollect cols).1
  let ids := sortFn (entries.map (fun p => p.1))
  applyFrags (addLoop entries ids (reflowCollect cols).2
    ⟨cols, cols.map (fun _ => [])⟩).1

/-- The comparator passed to the sort in line 198, function (a, b)
a greater than b, after ECMAScript coerces its boolean result to a number:
1 when a is greater than b and 0 otherwise. It never returns a negative
number. -/
def sortCompare (a b : Int) : Int :=
  if a > b then 1 else 0

/-- A JS value of the kinds the prop validators receive: a string or a
number (numbers restricted to exact integers; the validators only compare
them with 0). -/
inductive JSValue where
  | str (s : String)
  | num (n : Int)
deriving DecidableEq, Repr

/-- JS truthiness test on such a value: the empty string and 0 are falsy. -/
def jsFalsy : JSValue → Bool
  | .str s => s == ""
  | .num n => n == 0

/-- parseInt on a string (radix unspecified, decimal case): skip leading
whitespace, read an optional sign and then the longest leading run of
decimal digits, ignoring any trailing characters; NaN (none) when no digit
is read. The hexadecimal 0x form is not exercised here and is not
modelled. -/
def jsParseInt (s : String) : Option Int :=
  let cs := s.toList.dropWhile (fun c => c.isWhitespace)
  match cs with
  | '-' :: r =>
    let ds := r.takeWhile (fun c => c.isDigit)
    if ds.isEmpty then none else some (-(digitsVal ds : Int))
  | '+' :: r =>
    let ds := r.takeWhile (fun c => c.isDigit)
    if ds.isEmpty then none else some ((digitsVal ds : Int))
  | _ =>
    let ds := cs.takeWhile (fun c => c.isDigit)
    if ds.isEmpty then none else some ((digitsVal ds : Int))

/-- parseInt applied to a prop value: an integer number parses to itself. -/
def jsParseIntValue : JSValue → Option Int
  | .num n => some n
  | .str s => jsParseInt s

/-- The columnGap prop validator (waterfall.js lines 39-45): accept a falsy
value or the string normal outright, otherwise parseInt the value and accept
exactly when the result is a number strictly greater than 0. -/
def columnGapValidator (val : JSValue) : Bool :=
  if jsFalsy val = true ∨ val = JSValue.str "normal" then true
  else
    match jsParseIntValue val with
    | none => false
    | some n => decide (0 < n)

/-- Modelled from the spec: the framework prop resolution that consumes the
validator and the declared default is outside this repository; per the spec,
an absent or rejected columnGap value falls back to the documented default,
the string normal (the default declared at waterfall.js line 38). -/
def resolveColumnGap (provided : Option JSValue) : JSValue :=
  match provided with
  | none => JSValue.str "normal"
  | some v => if columnGapValidator v = true then v else JSValue.str "normal"

/-- A slot vnode as _createChildren inspects it: its tag (none when absent),
its componentOptions tag (none when componentOptions is absent), and its
data-type attribute (none when data.attrs or the key is absent). -/
structure VNode where
  tag : Option String
  componentOptions : Option String
  dataType : Option String
deriving DecidableEq, Repr

/-- The test !vnode.tag: true when the tag is absent or the empty string
(the two falsy possibilities for a tag). -/
def jsFalsyTag : Option String → Bool
  | none => true
  | some s => s == ""

/-- vnode.componentOptions.tag, read once componentOptions is known to be
present. -/
def nodeTag (v : VNode) : String :=
  v.componentOptions.getD ""

/-- The groups _createChildren accumulates while filtering the slots:
the single refresh and loading slots (a later one overwrites an earlier
one), and the header, footer, other and cell lists in push order. -/
structure Groups where
  refreshSlot : Option VNode
  loadingSlot : Option VNode
  headers : List VNode
  footers : List VNode
  others : List VNode
  cells : List VNode
deriving DecidableEq, Repr

/-- One step of the slot filter (waterfall.js lines 81-102): a vnode with a
falsy tag or no componentOptions goes nowhere; a refresh or loading vnode is
stored in its slot; a header vnode goes to footers when its data-type
attribute is the string footer and to headers otherwise; any other non-cell
tag goes to others; a cell vnode is kept in cells. -/
def classifyStep (g : Groups) (v : VNode) : Groups :=
  if jsFalsyTag v.tag = true ∨ v.componentOptions = none then g
  else if nodeTag v = "refresh" then { g with refreshSlot := some v }
  else if nodeTag v = "loading" then { g with loadingSlot := some v }
  else if nodeTag v = "header" then
    if v.dataType = some "footer" then { g with footers := g.footers ++ [v] }
    else { g with headers := g.headers ++ [v] }
  else if nodeTag v ≠ "cell" then { g with others := g.others ++ [v] }
  else { g with cells := g.cells ++ [v] }

/-- The whole slot filter, starting from a fresh component (no group
collected yet). -/
def classifySlots (slots : List VNode) : Groups :=
  slots.foldl classifyStep ⟨none, none, [], [], [], []⟩

/-- A child emitted by _createChildren: either a plain vnode, or the single
column-grid container div that wraps the cell list built by _genList. -/
inductive ChildNode where
  | node (v : VNode)
  | grid (cells : List VNode)
deriving DecidableEq, Repr

/-- The optional refresh and loading children: this._refresh and
this._loading are pushed only when set. -/
def optNodeList : Option VNode → List ChildNode
  | some v => [ChildNode.node v]
  | none => []

/-- The children list _createChildren returns (waterfall.js lines 106-118):
the refresh slot when present, the headers, the other vnodes, the column
grid holding the cells, the footers, and the loading slot when present. -/
def createChildren (slots : List VNode) : List ChildNode :=
  optNodeList (classifySlots slots).refreshSlot
    ++ ((classifySlots slots).headers.map ChildNode.node)
    ++ ((classifySlots slots).others.map ChildNode.node)
    ++ [ChildNode.grid (classifySlots slots).cells]
    ++ ((classifySlots slots).footers.map ChildNode.node)
    ++ optNodeList (classifySlots slots).loadingSlot

/-- A vnode that passes the guard of the slot filter: a truthy tag and a
present componentOptions. -/
def keptNode (v : VNode) : Bool :=
  decide (¬(jsFalsyTag v.tag = true ∨ v.componentOptions = none))

/-- A kept vnode whose component tag is refresh. -/
def isRefreshNode (v : VNode) : Bool :=
  keptNode v && decide (nodeTag v = "refresh")

/-- A kept vnode whose component tag is loading. -/
def isLoadingNode (v : VNode) : Bool :=
  keptNode v && decide (nodeTag v = "loading")

/-- A kept header vnode carrying the data-type footer marker. -/
def isFooterNode (v : VNode) : Bool :=
  keptNode v && decide (nodeTag v = "header") && decide (v.dataType = some "footer")

/-- A kept header vnode without the footer marker. -/
def isHeaderNode (v : VNode) : Bool :=
  keptNode v && decide (nodeTag v = "header") && !(decide (v.dataType = some "footer"))

/-- A kept vnode whose tag is none of refresh, loading, header, cell. -/
def isOtherNode (v : VNode) : Bool :=
  keptNode v && !(decide (nodeTag v = "refresh")) && !(decide (nodeTag v = "loading"))
    && !(decide (nodeTag v = "header")) && !(decide (nodeTag v = "cell"))

/-- A kept cell vnode, the only kind that enters the column grid. -/
def isCellNode (v : VNode) : Bool :=
  keptNode v && decide (nodeTag v = "cell")

/-- JS overwrite-fold: the last written value, or the start value when
nothing is written. -/
def lastWrite (l : List VNode) (d : Option VNode) : Option VNode :=
  l.foldl (fun _ v => some v) d

/-- The spec scenario of section 8: three columns, column 1 the shortest at
bottom 50; column 0 holds the cells with identifiers 5 and 6 (tops 60 and
90, heights 20 and 30), column 2 holds the cell with identifier 7 (top 70,
height 10). -/
def cellA5 : Cell := ⟨some "5", 60, 20⟩

/-- Cell with identifier 6 of the spec scenario. -/
def cellA6 : Cell := ⟨some "6", 90, 30⟩

/-- Cell with identifier 7 of the spec scenario. -/
def cellC7 : Cell := ⟨some "7", 70, 10⟩

/-- The single cell of the shortest column in the spec scenario. -/
def cellB1 : Cell := ⟨some "1", 0, 50⟩

/-- The spec scenario column state. -/
def scenarioCols : List (List Cell) := [[cellA5, cellA6], [cellB1], [cellC7]]

/-- The belowCells writes of the C1 scenario, in identifier order. -/
def entriesC1 : List (Int × Cell) := [(5, cellA5), (6, cellA6), (7, cellC7)]

/-- An already balanced three-column state: bottoms 40, 30, 35, and no cell
top exceeds the minimum bottom 30. -/
def balancedCols : List (List Cell) :=
  [[⟨some "1", 0, 40⟩], [⟨some "2", 0, 30⟩], [⟨some "3", 0, 35⟩]]

/-- Duplicate-identifier scenario: the attribute of cellDupY is missing and
that of cellDupX is non-numeric, so both coerce to identifier 0. cellDupY is
the lower cell and is scanned first; cellDupX is scanned last. -/
def cellDupY : Cell := ⟨none, 90, 30⟩

/-- The candidate scanned last in the duplicate-identifier scenario. -/
def cellDupX : Cell := ⟨some "foo", 60, 20⟩

/-- The single cell of the shortest column in the duplicate-identifier
scenario. -/
def cellDupBase : Cell := ⟨some "1", 0, 50⟩

/-- The duplicate-identifier column state: column 0 holds cellDupX above
cellDupY, column 1 is the shortest with bottom 50. -/
def dupCols : List (List Cell) := [[cellDupX, cellDupY], [cellDupBase]]

/-- A cell slot vnode for the classification scenarios. -/
def slotCell : VNode := ⟨some "section", some "cell", none⟩

/-- A header slot vnode. -/
def slotHeader : VNode := ⟨some "section", some "header", none⟩

/-- A header slot vnode carrying the data-type footer marker. -/
def slotFooter : VNode := ⟨some "section", some "header", some "footer"⟩

/-- A refresh slot vnode. -/
def slotRefresh : VNode := ⟨some "section", some "refresh", none⟩

/-- A loading slot vnode. -/
def slotLoading : VNode := ⟨some "section", some "loading", none⟩

/-- A passthrough slot vnode with some other component tag. -/
def slotOther : VNode := ⟨some "div", some "banner", none⟩

/-- A slot vnode with no tag: the filter guard drops it from every group. -/
def slotBad : VNode := ⟨none, some "cell", none⟩

/-- A slot sequence exercising every classification branch. -/
def demoSlots : List VNode :=
  [slotBad, slotRefresh, slotHeader, slotOther, slotCell, slotFooter, slotLoading]

theorem getLast?_mem_of_eq_some {α : Type} {l : List α} {a : α}
    (h : l.getLast? = some a) : a ∈ l := by
  have hx : a ∈ l.getLast? := by rw [h]; rfl
  obtain ⟨hne, rfl⟩ := List.mem_getLast?_eq_getLast hx
  exact List.getLast_mem hne

theorem collectColumn_mem (minB : Int) (col : List Cell) (c : Cell) :
    c ∈ collectColumn minB col ↔ c ∈ col ∧ minB < c.top := by
  simp [collectColumn, List.mem_filter, List.mem_reverse]

theorem mem_flatten_of_getD {c : Cell} :
    ∀ (L : List (List Cell)) (j : Nat), c ∈ L.getD j [] → c ∈ L.flatten := by
  intro L
  induction L with
  | nil => intro j h; simp at h
  | cons l ls ih =>
    intro j h
    match j with
    | 0 =>
      rw [List.getD_cons_zero] at h
      exact List.mem_flatten.mpr ⟨l, List.mem_cons_self _ _, h⟩
    | j + 1 =>
      rw [List.getD_cons_succ] at h
      rw [List.flatten_cons]
      exact List.mem_append.mpr (Or.inr (ih j h))

theorem collectLoop_mem (minB : Int) (minIdx : Nat) :
    ∀ (i : Nat) (cs : List (List Cell)) (bs : List Int) (p : Int × Cell),
      p ∈ (collectLoop minB minIdx i cs bs).1 →
      ∃ j, j < cs.length ∧ i + j ≠ minIdx ∧ p.2 ∈ collectColumn minB (cs.getD j [])
        ∧ p.1 = tildeTilde p.2.attr := by
  intro i cs
  induction cs generalizing i with
  | nil => intro bs p hp; simp [collectLoop] at hp
  | cons col cols ih =>
    intro bs p hp
    match bs with
    | [] => simp [collectLoop] at hp
    | b :: bs =>
      by_cases hmin : i = minIdx
      · subst hmin
        simp only [collectLoop, eq_self_iff_true, if_true] at hp
        obtain ⟨j, hj, hne, hm, hid⟩ := ih (i + 1) bs p hp
        refine ⟨j + 1, by simp only [List.length_cons]; omega, by omega, ?_, hid⟩
        simpa [List.getD_cons_succ] using hm
      · simp only [collectLoop, hmin, if_false, List.mem_append] at hp
        rcases hp with hp | hp
        · obtain ⟨c, hc, hpc⟩ := List.mem_map.mp hp
          refine ⟨0, by simp, by simpa using hmin, ?_, ?_⟩
          · rw [List.getD_cons_zero]; rw [← hpc]; exact hc
          · rw [← hpc]
        · obtain ⟨j, hj, hne, hm, hid⟩ := ih (i + 1) bs p hp
          refine ⟨j + 1, by simp only [List.length_cons]; omega, by omega, ?_, hid⟩
          simpa [List.getD_cons_succ] using hm

theorem collectLoop_mem_rev (minB : Int) (minIdx : Nat) :
    ∀ (i : Nat) (cs : List (List Cell)) (bs : List Int) (j : Nat),
      cs.length = bs.length → j < cs.length → i + j ≠ minIdx →
      ∀ c ∈ collectColumn minB (cs.getD j []),
        (tildeTilde c.attr, c) ∈ (collectLoop minB minIdx i cs bs).1 := by
  intro i cs
  induction cs generalizing i with
  | nil => intro bs j _ hj; simp at hj
  | cons col cols ih =>
    intro bs j hlen hj hne c hc
    match bs with
    | [] => simp at hlen
    | b :: bs =>
      match j with
      | 0 =>
        have hi : i ≠ minIdx := by omega
        simp only [collectLoop, hi, if_false, List.mem_append]
        rw [List.getD_cons_zero] at hc
        exact Or.inl (List.mem_map.mpr ⟨c, hc, rfl⟩)
      | j + 1 =>
        rw [List.getD_cons_succ] at hc
        by_cases hmin : i = minIdx
        · subst hmin
          have hrec := ih (i + 1) bs j (by simpa using hlen)
            (by simp only [List.length_cons] at hj; omega) (by omega) c hc
          simpa only [collectLoop, eq_self_iff_true, if_true] using hrec
        · have hrec := ih (i + 1) bs j (by simpa using hlen)
            (by simp only [List.length_cons] at hj; omega) (by omega) c hc
          simp only [collectLoop, hmin, if_false, List.mem_append]
          exact Or.inr hrec

theorem collectLoop_bots_len (minB : Int) (minIdx : Nat) :
    ∀ (i : Nat) (cs : List (List Cell)) (bs : List Int),
      cs.length = bs.length → (collectLoop minB minIdx i cs bs).2.length = bs.length := by
  intro i cs
  induction cs generalizing i with
  | nil => intro bs _; simp [collectLoop]
  | cons col cols ih =>
    intro bs hlen
    match bs with
    | [] => simp at hlen
    | b :: bs =>
      by_cases hmin : i = minIdx
      · subst hmin
        have hrec := ih (i + 1) bs (by simpa using hlen)
        simp [collectLoop, hrec]
      · have hrec := ih (i + 1) bs (by simpa using hlen)
        simp [collectLoop, hmin, hrec]

theorem collectLoop_bottoms (minB : Int) (minIdx : Nat) :
    ∀ (i : Nat) (cs : List (List Cell)) (bs : List Int) (j : Nat),
      cs.length = bs.length → j < cs.length →
      (collectLoop minB minIdx i cs bs).2.getD j 0 =
        (if i + j = minIdx then bs.getD j 0
         else bs.getD j 0 - heightsSum (collectColumn minB (cs.getD j []))) := by
  intro i cs
  induction cs generalizing i with
  | nil => intro bs j _ hj; simp at hj
  | cons col cols ih =>
    intro bs j hlen hj
    match bs with
    | [] => simp at hlen
    | b :: bs =>
      match j with
      | 0 =>
        by_cases hmin : i = minIdx
        · simp [collectLoop, hmin]
        · simp [collectLoop, hmin]
      | j + 1 =>
        by_cases hmin : i = minIdx
        · subst hmin
          have hrec := ih (i + 1) bs j (by simpa using hlen)
            (by simp only [List.length_cons] at hj; omega)
          simp only [collectLoop, eq_self_iff_true, if_true, List.getD_cons_succ]
          rw [hrec]
          have heq : i + (j + 1) = i + 1 + j := by omega
          rw [heq]
        · have hrec := ih (i + 1) bs j (by simpa using hlen)
            (by simp only [List.length_cons] at hj; omega)
          simp only [collectLoop, hmin, if_false, List.getD_cons_succ]
          rw [hrec]
          have heq : i + (j + 1) = i + 1 + j := by omega
          rw [heq]

theorem collectLoop_of_balanced (minB : Int) (minIdx : Nat) :
    ∀ (i : Nat) (cs : List (List Cell)) (bs : List Int),
      cs.length = bs.length →
      (∀ j, j < cs.length → i + j ≠ minIdx → ∀ c ∈ cs.getD j [], c.top ≤ minB) →
      collectLoop minB minIdx i cs bs = ([], bs) := by
  intro i cs
  induction cs generalizing i with
  | nil =>
    intro bs hlen _
    match bs with
    | [] => rfl
    | b :: bs => simp at hlen
  | cons col cols ih =>
    intro bs hlen hbal
    match bs with
    | [] => simp at hlen
    | b :: bs =>
      by_cases hmin : i = minIdx
      · subst hmin
        have hrec := ih (i + 1) bs (by simpa using hlen) (by
          intro j hj hne c hc
          have hb := hbal (j + 1) (by simp only [List.length_cons]; omega) (by omega)
          rw [List.getD_cons_succ] at hb
          exact hb c hc)
        simp [collectLoop, hrec]
      · have hrec := ih (i + 1) bs (by simpa using hlen) (by
          intro j hj hne c hc
          have hb := hbal (j + 1) (by simp only [List.length_cons]; omega) (by omega)
          rw [List.getD_cons_succ] at hb
          exact hb c hc)
        have hempty : collectColumn minB col = [] := by
          unfold collectColumn
          rw [List.filter_eq_nil_iff]
          intro c hc
          have hcc : c ∈ col := List.mem_reverse.mp hc
          have := hbal 0 (by simp) (by omega) c (by simpa using hcc)
          simpa using this
        simp [collectLoop, hmin, hrec, hempty, heightsSum]

theorem mapLookup_mem {m : List (Int × Cell)} {k : Int} {c : Cell}
    (h : mapLookup m k = some c) : ∃ p ∈ m, p.1 = k ∧ p.2 = c := by
  unfold mapLookup at h
  cases hf : m.reverse.find? (fun p => p.1 == k) with
  | none => rw [hf] at h; simp at h
  | some p =>
    rw [hf] at h
    simp at h
    have hp := List.mem_of_find?_eq_some hf
    have hpk := List.find?_some hf
    refine ⟨p, List.mem_reverse.mp hp, ?_, by simpa using h⟩
    simpa using hpk

theorem foldl_min_mem : ∀ (xs : List Int) (x : Int), xs.foldl min x ∈ x :: xs := by
  intro xs
  induction xs with
  | nil => intro x; exact List.mem_cons_self x []
  | cons y ys ih =>
    intro x
    rw [List.foldl_cons]
    rcases min_choice x y with hm | hm <;> rw [hm]
    · rcases List.mem_cons.mp (ih x) with h | h
      · simp [h]
      · simp [h]
    · rcases List.mem_cons.mp (ih y) with h | h
      · simp [h]
      · simp [h]

theorem jsMathMin_mem {l : List Int} (h : l ≠ []) : jsMathMin l ∈ l := by
  match l with
  | [] => exact absurd rfl h
  | x :: xs => exact foldl_min_mem xs x

theorem map_erase_of_not_mem_flatten (e : Cell) :
    ∀ (L : List (List Cell)), e ∉ L.flatten → L.map (fun l => l.erase e) = L := by
  intro L
  induction L with
  | nil => intro _; rfl
  | cons l ls ih =>
    intro h
    rw [List.flatten_cons, List.mem_append] at h
    push_neg at h
    rw [List.map_cons, List.erase_of_not_mem h.1, ih h.2]

theorem mem_flatten_map_erase {c e : Cell} :
    ∀ (L : List (List Cell)), c ∈ (L.map (fun l => l.erase e)).flatten → c ∈ L.flatten := by
  intro L h
  obtain ⟨l2, hl2, hc⟩ := List.mem_flatten.mp h
  obtain ⟨l, hl, rfl⟩ := List.mem_map.mp hl2
  exact List.mem_flatten.mpr ⟨l, hl, List.mem_of_mem_erase hc⟩

theorem erase_flatten_perm (e : Cell) :
    ∀ (L : List (List Cell)), L.flatten.Nodup → e ∈ L.flatten →
      ((L.map (fun l => l.erase e)).flatten).Perm (L.flatten.erase e) := by
  intro L
  induction L with
  | nil => intro _ h; simp at h
  | cons l ls ih =>
    intro hnd he
    rw [List.flatten_cons] at hnd he
    rw [List.map_cons, List.flatten_cons]
    rcases List.mem_append.mp he with h | h
    · have hdisj := (List.nodup_append.mp hnd).2.2
      have hnotin : e ∉ ls.flatten := fun hc => hdisj h hc
      rw [map_erase_of_not_mem_flatten e ls hnotin]
      rw [List.flatten_cons, List.erase_append_left _ h]
    · by_cases hel : e ∈ l
      · exact absurd ((List.nodup_append.mp hnd).2.2 hel h) (fun f => f)
      · rw [List.erase_of_not_mem hel, List.flatten_cons,
          List.erase_append_right _ hel]
        exact List.Perm.append_left l (ih (List.nodup_append.mp hnd).2.1 h)

theorem flatten_set_perm (e : Cell) :
    ∀ (fr : List (List Cell)) (k : Nat), k < fr.length →
      ((fr.set k (fr.getD k [] ++ [e])).flatten).Perm (fr.flatten ++ [e]) := by
  intro fr
  induction fr with
  | nil => intro k hk; simp at hk
  | cons f fs ih =>
    intro k hk
    match k with
    | 0 =>
      rw [List.getD_cons_zero, List.set_cons_zero, List.flatten_cons, List.flatten_cons]
      calc ((f ++ [e]) ++ fs.flatten)
          = f ++ ([e] ++ fs.flatten) := by rw [List.append_assoc]
        _ ~ f ++ (fs.flatten ++ [e]) := List.Perm.append_left f List.perm_append_comm
        _ = (f ++ fs.flatten) ++ [e] := by rw [List.append_assoc]
    | k + 1 =>
      rw [List.getD_cons_succ, List.set_cons_succ, List.flatten_cons, List.flatten_cons]
      have hrec := ih k (by simp only [List.length_cons] at hk; omega)
      calc (f ++ (fs.set k (fs.getD k [] ++ [e])).flatten)
          ~ f ++ (fs.flatten ++ [e]) := List.Perm.append_left f hrec
        _ = (f ++ fs.flatten) ++ [e] := by rw [List.append_assoc]

theorem mem_flatten_set {c : Cell} :
    ∀ (fr : List (List Cell)) (k : Nat) (v : List Cell),
      c ∈ (fr.set k v).flatten → c ∈ fr.flatten ∨ c ∈ v := by
  intro fr
  induction fr with
  | nil => intro k v h; simp at h
  | cons f fs ih =>
    intro k v h
    match k with
    | 0 =>
      rw [List.set_cons_zero, List.flatten_cons, List.mem_append] at h
      rcases h with h | h
      · exact Or.inr h
      · exact Or.inl (by rw [List.flatten_cons, List.mem_append]; exact Or.inr h)
    | k + 1 =>
      rw [List.set_cons_succ, List.flatten_cons, List.mem_append] at h
      rcases h with h | h
      · exact Or.inl (by rw [List.flatten_cons, List.mem_append]; exact Or.inl h)
      · rcases ih k v h with h | h
        · exact Or.inl (by rw [List.flatten_cons, List.mem_append]; exact Or.inr h)
        · exact Or.inr h

theorem getD_map_erase (e : Cell) :
    ∀ (L : List (List Cell)) (j : Nat),
      (L.map (fun l => l.erase e)).getD j [] = (L.getD j []).erase e := by
  intro L
  induction L with
  | nil => intro j; simp
  | cons l ls ih =>
    intro j
    match j with
    | 0 => rw [List.map_cons, List.getD_cons_zero, List.getD_cons_zero]
    | j + 1 => rw [List.map_cons, List.getD_cons_succ, List.getD_cons_succ]; exact ih j

theorem appendChildFrag_perm (k : Nat) (e : Cell) (s : DomState)
    (hk : k < s.frags.length) (he : e ∈ domCells s) (hnd : (domCells s).Nodup) :
    (domCells (appendChildFrag k e s)).Perm (domCells s) := by
  unfold domCells appendChildFrag
  unfold domCells at he hnd
  have hk2 : k < (s.frags.map (fun l => l.erase e)).length := by
    rw [List.length_map]; exact hk
  calc ((s.columns.map (fun l => l.erase e)
          ++ ((s.frags.map (fun l => l.erase e)).set k
              ((s.frags.map (fun l => l.erase e)).getD k [] ++ [e]))).flatten)
      = (s.columns.map (fun l => l.erase e)).flatten
        ++ ((s.frags.map (fun l => l.erase e)).set k
            ((s.frags.map (fun l => l.erase e)).getD k [] ++ [e])).flatten := by
        rw [List.flatten_append]
    _ ~ (s.columns.map (fun l => l.erase e)).flatten
        ++ ((s.frags.map (fun l => l.erase e)).flatten ++ [e]) :=
        List.Perm.append_left _ (flatten_set_perm e _ k hk2)
    _ = ((s.columns.map (fun l => l.erase e)).flatten
        ++ (s.frags.map (fun l => l.erase e)).flatten) ++ [e] := by
        rw [List.append_assoc]
    _ = (((s.columns ++ s.frags).map (fun l => l.erase e)).flatten) ++ [e] := by
        rw [List.map_append, List.flatten_append]
    _ ~ (((s.columns ++ s.frags).flatten).erase e) ++ [e] :=
        List.Perm.append_right _ (erase_flatten_perm e _ hnd he)
    _ ~ e :: ((s.columns ++ s.frags).flatten).erase e := List.perm_append_comm
    _ ~ (s.columns ++ s.frags).flatten := (List.perm_cons_erase he).symm

theorem addLoop_perm (entries : List (Int × Cell)) (base : List Cell)
    (hbnd : base.Nodup) (hent : ∀ p ∈ entries, p.2 ∈ base) :
    ∀ (ids bots : List Int) (s : DomState),
      (domCells s).Perm base → bots.length = s.frags.length →
      (entries = [] ∨ 0 < bots.length) →
      (domCells (addLoop entries ids bots s).1).Perm base := by
  intro ids
  induction ids with
  | nil => intro bots s hperm _ _; simpa [addLoop] using hperm
  | cons id ids ih =>
    intro bots s hperm hlen hpos
    cases hlk : mapLookup entries id with
    | none =>
      simp only [addLoop, hlk]
      exact ih bots s hperm hlen hpos
    | some c =>
      simp only [addLoop, hlk]
      obtain ⟨p, hpm, hpk, hpc⟩ := mapLookup_mem hlk
      have hcbase : c ∈ base := hpc ▸ hent p hpm
      have hbots : 0 < bots.length := by
        rcases hpos with h | h
        · rw [h] at hlk; simp [mapLookup] at hlk
        · exact h
      have hne : bots ≠ [] := by
        intro hnil; rw [hnil] at hbots; simp at hbots
      have hk : bots.indexOf (jsMathMin bots) < bots.length :=
        List.indexOf_lt_length.mpr (jsMathMin_mem hne)
      have hk2 : bots.indexOf (jsMathMin bots) < s.frags.length := by omega
      have hce : c ∈ domCells s := hperm.mem_iff.mpr hcbase
      have hnds : (domCells s).Nodup := (hperm.symm).nodup hbnd
      have hstep := appendChildFrag_perm _ c s hk2 hce hnds
      apply ih
      · exact hstep.trans hperm
      · simp [appendChildFrag, List.length_set, List.length_map, hlen]
      · right; simpa [List.length_set] using hbots

theorem addLoop_lens (entries : List (Int × Cell)) :
    ∀ (ids bots : List Int) (s : DomState),
      (addLoop entries ids bots s).1.columns.length = s.columns.length ∧
      (addLoop entries ids bots s).1.frags.length = s.frags.length := by
  intro ids
  induction ids with
  | nil => intro bots s; simp [addLoop]
  | cons id ids ih =>
    intro bots s
    cases hlk : mapLookup entries id with
    | none => simp only [addLoop, hlk]; exact ih bots s
    | some c =>
      simp only [addLoop, hlk]
      have h := ih (bots.set (bots.indexOf (jsMathMin bots))
        (bots.getD (bots.indexOf (jsMathMin bots)) 0 + c.height))
        (appendChildFrag (bots.indexOf (jsMathMin bots)) c s)
      constructor
      · rw [h.1]; simp [appendChildFrag]
      · rw [h.2]; simp [appendChildFrag, List.length_set]

theorem addLoop_col_fixed (entries : List (Int × Cell)) (j : Nat) (colJ : List Cell)
    (hent : ∀ p ∈ entries, p.2 ∉ colJ) :
    ∀ (ids bots : List Int) (s : DomState),
      s.columns.getD j [] = colJ →
      (addLoop entries ids bots s).1.columns.getD j [] = colJ := by
  intro ids
  induction ids with
  | nil => intro bots s h; simpa [addLoop] using h
  | cons id ids ih =>
    intro bots s h
    cases hlk : mapLookup entries id with
    | none => simp only [addLoop, hlk]; exact ih bots s h
    | some c =>
      simp only [addLoop, hlk]
      apply ih
      obtain ⟨p, hpm, hpk, hpc⟩ := mapLookup_mem hlk
      have hcn : c ∉ colJ := hpc ▸ hent p hpm
      show (appendChildFrag (bots.indexOf (jsMathMin bots)) c s).columns.getD j [] = colJ
      simp only [appendChildFrag]
      rw [getD_map_erase, h, List.erase_of_not_mem hcn]

theorem addLoop_frags_sub (entries : List (Int × Cell)) :
    ∀ (ids bots : List Int) (s : DomState),
      (∀ c ∈ s.frags.flatten, ∃ p ∈ entries, p.2 = c) →
      ∀ c ∈ (addLoop entries ids bots s).1.frags.flatten, ∃ p ∈ entries, p.2 = c := by
  intro ids
  induction ids with
  | nil => intro bots s h; simpa [addLoop] using h
  | cons id ids ih =>
    intro bots s h
    cases hlk : mapLookup entries id with
    | none => simp only [addLoop, hlk]; exact ih bots s h
    | some c =>
      simp only [addLoop, hlk]
      apply ih
      intro d hd
      simp only [appendChildFrag] at hd
      rcases mem_flatten_set _ _ _ hd with hd | hd
      · exact h d (mem_flatten_map_erase _ hd)
      · rcases List.mem_append.mp hd with hd | hd
        · have hdf : d ∈ (s.frags.map (fun l => l.erase c)).flatten :=
            mem_flatten_of_getD _ _ hd
          exact h d (mem_flatten_map_erase _ hdf)
        · obtain ⟨p, hpm, hpk, hpc⟩ := mapLookup_mem hlk
          have hdc : d = c := by simpa using hd
          exact ⟨p, hpm, by rw [hpc, hdc]⟩

theorem perm_shuffle (b x y : List Cell) : (b ++ x) ++ y ~ x ++ (b ++ y) := by
  calc (b ++ x) ++ y
      ~ (x ++ b) ++ y := List.Perm.append_right y List.perm_append_comm
    _ = x ++ (b ++ y) := List.append_assoc x b y

theorem zip_append_flatten_perm :
    ∀ (as bs : List (List Cell)), as.length = bs.length →
      (((as.zip bs).map (fun p => p.1 ++ p.2)).flatten).Perm (as.flatten ++ bs.flatten) := by
  intro as
  induction as with
  | nil =>
    intro bs hlen
    match bs with
    | [] => simp
    | b :: bs => simp at hlen
  | cons a as ih =>
    intro bs hlen
    match bs with
    | [] => simp at hlen
    | b :: bs =>
      have hrec := ih bs (by simpa using hlen)
      simp only [List.zip_cons_cons, List.map_cons, List.flatten_cons]
      calc (a ++ b) ++ ((as.zip bs).map (fun p => p.1 ++ p.2)).flatten
          ~ (a ++ b) ++ (as.flatten ++ bs.flatten) := List.Perm.append_left _ hrec
        _ = a ++ (b ++ (as.flatten ++ bs.flatten)) := List.append_assoc a b _
        _ = a ++ ((b ++ as.flatten) ++ bs.flatten) :=
            congrArg (a ++ ·) (List.append_assoc b as.flatten bs.flatten).symm
        _ ~ a ++ (as.flatten ++ (b ++ bs.flatten)) :=
            List.Perm.append_left a (perm_shuffle b as.flatten bs.flatten)
        _ = (a ++ as.flatten) ++ (b ++ bs.flatten) :=
            (List.append_assoc a as.flatten _).symm

theorem applyFrags_flatten_perm (s : DomState)
    (hlen : s.columns.length = s.frags.length) :
    ((applyFrags s).flatten).Perm (domCells s) := by
  unfold applyFrags domCells
  rw [List.flatten_append]
  exact zip_append_flatten_perm s.columns s.frags hlen

theorem zip_append_getD :
    ∀ (as bs : List (List Cell)) (i : Nat), as.length = bs.length →
      ((as.zip bs).map (fun p => p.1 ++ p.2)).getD i [] = as.getD i [] ++ bs.getD i [] := by
  intro as
  induction as with
  | nil =>
    intro bs i hlen
    match bs with
    | [] => simp
    | b :: bs => simp at hlen
  | cons a as ih =>
    intro bs i hlen
    match bs with
    | [] => simp at hlen
    | b :: bs =>
      match i with
      | 0 => simp [List.zip_cons_cons]
      | i + 1 =>
        simp only [List.zip_cons_cons, List.map_cons, List.getD_cons_succ]
        exact ih bs i (by simpa using hlen)

theorem applyFrags_getD (s : DomState) (i : Nat)
    (hlen : s.columns.length = s.frags.length) :
    (applyFrags s).getD i [] = s.columns.getD i [] ++ s.frags.getD i [] := by
  unfold applyFrags
  exact zip_append_getD s.columns s.frags i hlen

theorem applyFrags_nil_frags :
    ∀ (cols : List (List Cell)), applyFrags ⟨cols, cols.map (fun _ => [])⟩ = cols := by
  intro cols
  induction cols with
  | nil => rfl
  | cons c cs ih =>
    simp only [applyFrags, List.map_cons, List.zip_cons_cons, List.append_nil]
    have h := ih
    simp only [applyFrags] at h
    rw [h]

theorem flatten_map_nil (cols : List (List Cell)) :
    ((cols.map (fun _ => ([] : List Cell))).flatten) = [] := by
  induction cols with
  | nil => rfl
  | cons c cs ih => simpa using ih

theorem not_mem_getD_of_nodup_flatten {L : List (List Cell)} (hnd : L.flatten.Nodup)
    {i j : Nat} (hij : i ≠ j) (hi : i < L.length) {c : Cell} (hc : c ∈ L.getD i []) :
    c ∉ L.getD j [] := by
  by_cases hj : j < L.length
  · have hsplit := List.nodup_flatten.mp hnd
    have hpw := List.pairwise_iff_getElem.mp hsplit.2
    rw [List.getD_eq_getElem _ _ hi] at hc
    intro hcj
    rw [List.getD_eq_getElem _ _ hj] at hcj
    rcases Nat.lt_or_ge i j with hlt | hge
    · exact hpw i j hi hj hlt hc hcj
    · have hlt : j < i := by omega
      exact (hpw j i hj hi hlt) hcj hc
  · intro hcj
    rw [List.getD_eq_default _ _ (by omega)] at hcj
    simp at hcj

theorem classifyStep_spec (g : Groups) (v : VNode) :
    classifyStep g v =
      ⟨if isRefreshNode v then some v else g.refreshSlot,
       if isLoadingNode v then some v else g.loadingSlot,
       if isHeaderNode v then g.headers ++ [v] else g.headers,
       if isFooterNode v then g.footers ++ [v] else g.footers,
       if isOtherNode v then g.others ++ [v] else g.others,
       if isCellNode v then g.cells ++ [v] else g.cells⟩ := by
  by_cases h0 : jsFalsyTag v.tag = true ∨ v.componentOptions = none
  · have hk : keptNode v = false := by simp [keptNode, h0]
    simp [classifyStep, h0, isRefreshNode, isLoadingNode, isHeaderNode, isFooterNode,
      isOtherNode, isCellNode, hk]
  · have hk : keptNode v = true := by simp [keptNode, h0]
    by_cases h1 : nodeTag v = "refresh"
    · simp [classifyStep, h0, h1, isRefreshNode, isLoadingNode, isHeaderNode,
        isFooterNode, isOtherNode, isCellNode, hk]
    · by_cases h2 : nodeTag v = "loading"
      · simp [classifyStep, h0, h1, h2, isRefreshNode, isLoadingNode, isHeaderNode,
          isFooterNode, isOtherNode, isCellNode, hk]
      · by_cases h3 : nodeTag v = "header"
        · by_cases h4 : v.dataType = some "footer"
          · simp [classifyStep, h0, h1, h2, h3, h4, isRefreshNode, isLoadingNode,
              isHeaderNode, isFooterNode, isOtherNode, isCellNode, hk]
          · simp [classifyStep, h0, h1, h2, h3, h4, isRefreshNode, isLoadingNode,
              isHeaderNode, isFooterNode, isOtherNode, isCellNode, hk]
        · by_cases h5 : nodeTag v = "cell"
          · simp [classifyStep, h0, h1, h2, h3, h5, isRefreshNode, isLoadingNode,
              isHeaderNode, isFooterNode, isOtherNode, isCellNode, hk]
          · simp [classifyStep, h0, h1, h2, h3, h5, isRefreshNode, isLoadingNode,
              isHeaderNode, isFooterNode, isOtherNode, isCellNode, hk]

theorem classifyFold_spec :
    ∀ (slots : List VNode) (g : Groups),
      slots.foldl classifyStep g =
        ⟨lastWrite (slots.filter isRefreshNode) g.refreshSlot,
         lastWrite (slots.filter isLoadingNode) g.loadingSlot,
         g.headers ++ slots.filter isHeaderNode,
         g.footers ++ slots.filter isFooterNode,
         g.others ++ slots.filter isOtherNode,
         g.cells ++ slots.filter isCellNode⟩ := by
  intro slots
  induction slots with
  | nil => intro g; simp [lastWrite]
  | cons v vs ih =>
    intro g
    rw [List.foldl_cons, ih (classifyStep g v), classifyStep_spec]
    congr 1
    · rw [List.filter_cons]
      by_cases hv : isRefreshNode v <;> simp [hv, lastWrite]
    · rw [List.filter_cons]
      by_cases hv : isLoadingNode v <;> simp [hv, lastWrite]
    · rw [List.filter_cons]
      by_cases hv : isHeaderNode v <;> simp [hv]
    · rw [List.filter_cons]
      by_cases hv : isFooterNode v <;> simp [hv]
    · rw [List.filter_cons]
      by_cases hv : isOtherNode v <;> simp [hv]
    · rw [List.filter_cons]
      by_cases hv : isCellNode v <;> simp [hv]

theorem createChildren_spec (slots : List VNode) :
    createChildren slots =
      optNodeList (lastWrite (slots.filter isRefreshNode) none)
        ++ ((slots.filter isHeaderNode).map ChildNode.node)
        ++ ((slots.filter isOtherNode).map ChildNode.node)
        ++ [ChildNode.grid (slots.filter isCellNode)]
        ++ ((slots.filter isFooterNode).map ChildNode.node)
        ++ optNodeList (lastWrite (slots.filter isLoadingNode) none) := by
  unfold createChildren classifySlots
  rw [classifyFold_spec]
  simp

theorem lastWrite_mem :
    ∀ (l : List VNode) (d : Option VNode) (r : VNode),
      lastWrite l d = some r → r ∈ l ∨ d = some r := by
  intro l
  induction l with
  | nil => intro d r h; exact Or.inr h
  | cons v vs ih =>
    intro d r h
    rw [lastWrite, List.foldl_cons] at h
    rcases ih (some v) r h with h2 | h2
    · exact Or.inl (List.mem_cons_of_mem v h2)
    · have hvr : v = r := by injection h2
      rw [← hvr]
      exact Or.inl (List.mem_cons_self v vs)

theorem kept_of_isRefreshNode {v : VNode} (h : isRefreshNode v = true) :
    keptNode v = true := by
  simp [isRefreshNode, Bool.and_eq_true] at h; exact h.1

theorem kept_of_isLoadingNode {v : VNode} (h : isLoadingNode v = true) :
    keptNode v = true := by
  simp [isLoadingNode, Bool.and_eq_true] at h; exact h.1

theorem kept_of_isHeaderNode {v : VNode} (h : isHeaderNode v = true) :
    keptNode v = true := by
  simp [isHeaderNode, Bool.and_eq_true] at h; exact h.1.1

theorem kept_of_isFooterNode {v : VNode} (h : isFooterNode v = true) :
    keptNode v = true := by
  simp [isFooterNode, Bool.and_eq_true] at h; exact h.1.1

theorem kept_of_isOtherNode {v : VNode} (h : isOtherNode v = true) :
    keptNode v = true := by
  simp [isOtherNode, Bool.and_eq_true] at h; exact h.1.1.1.1

theorem kept_of_isCellNode {v : VNode} (h : isCellNode v = true) :
    keptNode v = true := by
  simp [isCellNode, Bool.and_eq_true] at h; exact h.1

/-- Claim C1: for the concrete reflow input with 3 columns, post-removal
bottom trackers [50, 50, 70] and the candidate pool with identifier 5
(height 20), 6 (height 30) and 7 (height 10) processed in identifier order,
the greedy assignment loop assigns 5 to column 0 (first index on the 50/50
tie), 6 to column 1 and 7 to column 0 (their elements land in fragments 0, 1
and 0), leaving final bottom trackers 80, 80 and 70. -/
theorem greedy_assignment_scenario :
    addLoop entriesC1 [5, 6, 7] [50, 50, 70]
        ⟨[[cellA5, cellA6], [], [cellC7]], [[], [], []]⟩
      = (⟨[[], [], []], [[cellA5, cellC7], [cellA6], []]⟩, [80, 80, 70]) := by
  decide

/-- Claim C2: the comparator the reflow pass hands to the sort of the
candidate pool, coerced as ECMAScript prescribes, returns 1 when the first
argument is greater and 0 otherwise; it never returns a negative number, so
it is not a consistent comparison function (a consistent one returns a
negative number on the pair 5, 6 whose swap it maps to a positive number)
and ECMAScript leaves the sort order implementation-defined rather than
ascending. -/
theorem sort_comparator_inconsistent :
    sortCompare 6 5 = 1 ∧ sortCompare 5 6 = 0
    ∧ decide (sortCompare 5 6 < 0) = false := by
  decide

/-- Claim C7: the columnGap validator accepts the string normal, the empty
string, and any value parseInt maps to a strictly positive integer; it
accepts exactly the falsy values, normal and positive-parsing values, and in
particular it rejects the string -5, for which the spec-modelled framework
fallback substitutes the declared default normal. The validator is a total
function, so no exception reaches the caller. -/
theorem columnGap_validator_spec :
    columnGapValidator (JSValue.str "normal") = true
    ∧ columnGapValidator (JSValue.str "") = true
    ∧ columnGapValidator (JSValue.str "-5") = false
    ∧ resolveColumnGap none = JSValue.str "normal"
    ∧ resolveColumnGap (some (JSValue.str "-5")) = JSValue.str "normal"
    ∧ (∀ v, columnGapValidator v = true ↔
        (jsFalsy v = true ∨ v = JSValue.str "normal"
          ∨ ∃ n, jsParseIntValue v = some n ∧ 0 < n)) := by
  refine ⟨by decide, by decide, by decide, rfl, by decide, ?_⟩
  intro v
  unfold columnGapValidator
  by_cases h : jsFalsy v = true ∨ v = JSValue.str "normal"
  · rw [if_pos h]
    constructor
    · intro _
      rcases h with h | h
      · exact Or.inl h
      · exact Or.inr (Or.inl h)
    · intro _; rfl
  · rw [if_neg h]
    push_neg at h
    cases hp : jsParseIntValue v with
    | none =>
      constructor
      · intro hfalse; exact absurd hfalse (by simp)
      · intro hr
        rcases hr with h1 | h2 | ⟨n, hn, _⟩
        · exact absurd h1 h.1
        · exact absurd h2 h.2
        · exact absurd hn (by simp)
    | some n =>
      constructor
      · intro hdec
        exact Or.inr (Or.inr ⟨n, rfl, of_decide_eq_true hdec⟩)
      · intro hr
        rcases hr with h1 | h2 | ⟨m, hm, hpos⟩
        · exact absurd h1 h.1
        · exact absurd h2 h.2
        · injection hm with hm
          rw [hm]
          exact decide_eq_true hpos

/-- Claim C9: every entry of the candidate map pairs a collected element with
the identifier obtained by the double bitwise NOT coercion of its data-cell
attribute, and a missing or non-numeric attribute coerces to 0. In the
duplicate-identifier scenario both candidates coerce to 0: the map write of
the later-scanned cellDupX overwrites that of the earlier-scanned cellDupY,
the lookup used for re-insertion returns cellDupX only, both heights were
already subtracted from the column 0 tracker (120 - 30 - 20 = 70), and the
full pass leaves cellDupY in its column unmoved while only cellDupX is
re-appended. -/
theorem candidate_id_coercion_and_overwrite :
    ∀ (cols : List (List Cell)) (p : Int × Cell),
      p ∈ (reflowCollect cols).1 →
      p.1 = tildeTilde p.2.attr
      ∧ tildeTilde none = 0
      ∧ tildeTilde (some "foo") = 0
      ∧ (reflowCollect dupCols).1 = [(0, cellDupY), (0, cellDupX)]
      ∧ mapLookup (reflowCollect dupCols).1 0 = some cellDupX
      ∧ (reflowCollect dupCols).2 = [70, 50]
      ∧ reLayoutChildren (fun l => l) dupCols
          = [[cellDupY, cellDupX], [cellDupBase]] := by
  intro cols p hp
  obtain ⟨j, hj, hne, hmem, hid⟩ := collectLoop_mem _ _ 0 cols _ p hp
  exact ⟨hid, by decide, by decide, by decide, by decide, by decide, by decide⟩

/-- Witness for C9 at a concrete collected candidate of the
duplicate-identifier scenario. -/
theorem candidate_id_coercion_and_overwrite_witness :
    (0, cellDupY).1 = tildeTilde (0, cellDupY).2.attr
    ∧ tildeTilde none = 0
    ∧ tildeTilde (some "foo") = 0
    ∧ (reflowCollect dupCols).1 = [(0, cellDupY), (0, cellDupX)]
    ∧ mapLookup (reflowCollect dupCols).1 0 = some cellDupX
    ∧ (reflowCollect dupCols).2 = [70, 50]
    ∧ reLayoutChildren (fun l => l) dupCols
        = [[cellDupY, cellDupX], [cellDupBase]] :=
  candidate_id_coercion_and_overwrite dupCols (0, cellDupY) (by decide)

/-- Claim C4: a reflow pass over columns whose cells carry pairwise-distinct
identifiers preserves the multiset of identifiers across all columns: every
moved element is removed from exactly one place and appended to exactly one
fragment, every fragment is appended to its column at the end, and no other
element is touched. The sort function is arbitrary, since moving elements
around conserves them regardless of processing order. -/
theorem balance_reflow_conserves_ids (sortFn : List Int → List Int)
    (cols : List (List Cell))
    (hids : ((cols.flatten).map cellId).Nodup) :
    (((reLayoutChildren sortFn cols).flatten).map cellId).Perm
      ((cols.flatten).map cellId) := by
  have hnd : (cols.flatten).Nodup := List.Nodup.of_map _ hids
  have hentcells : ∀ p ∈ (reflowCollect cols).1, p.2 ∈ cols.flatten := by
    intro p hp
    obtain ⟨j, hj, hne, hmem, hid⟩ := collectLoop_mem _ _ 0 cols _ p hp
    exact mem_flatten_of_getD cols j ((collectColumn_mem _ _ _).mp hmem).1
  have hdom0 : domCells ⟨cols, cols.map (fun _ => [])⟩ = cols.flatten := by
    unfold domCells
    rw [List.flatten_append, flatten_map_nil, List.append_nil]
  have hlen0 : (reflowCollect cols).2.length = cols.length := by
    unfold reflowCollect
    rw [collectLoop_bots_len _ _ 0 cols _ (by rw [List.length_map]), List.length_map]
  have hpos : (reflowCollect cols).1 = [] ∨ 0 < (reflowCollect cols).2.length := by
    by_cases hcn : cols = []
    · subst hcn; exact Or.inl (by simp [reflowCollect, collectLoop])
    · exact Or.inr (by rw [hlen0]; exact List.length_pos.mpr hcn)
  have hperm := addLoop_perm (reflowCollect cols).1 cols.flatten hnd hentcells
    (sortFn (((reflowCollect cols).1).map (fun p => p.1))) (reflowCollect cols).2
    ⟨cols, cols.map (fun _ => [])⟩
    (by rw [hdom0]) (by rw [hlen0, List.length_map]) hpos
  have hlens := addLoop_lens (reflowCollect cols).1
    (sortFn (((reflowCollect cols).1).map (fun p => p.1))) (reflowCollect cols).2
    ⟨cols, cols.map (fun _ => [])⟩
  have happ := applyFrags_flatten_perm
    (addLoop (reflowCollect cols).1
      (sortFn (((reflowCollect cols).1).map (fun p => p.1))) (reflowCollect cols).2
      ⟨cols, cols.map (fun _ => [])⟩).1
    (by rw [hlens.1, hlens.2]; simp)
  simp only [reLayoutChildren]
  exact List.Perm.map cellId (happ.trans hperm)

/-- Witness for C4 on the spec scenario with the identity reordering. -/
theorem balance_reflow_conserves_ids_witness :
    (((reLayoutChildren (fun l => l) scenarioCols).flatten).map cellId).Perm
      ((scenarioCols.flatten).map cellId) :=
  balance_reflow_conserves_ids (fun l => l) scenarioCols (by decide)

/-- Claim C3: during candidate collection, for every column other than the
pre-pass minimum column, an item of that column is collected exactly when its
top edge is strictly greater than the pre-pass minimum bottom (the scan runs
from the last item to the first); every collected item enters the candidate
map under its coerced identifier, and the column bottom tracker ends the
collection decremented by exactly the sum of the collected heights. -/
theorem collection_candidates_characterized (cols : List (List Cell)) (i : Nat)
    (hi : i < cols.length) (hne : i ≠ (reflowMin cols).2) :
    (∀ c, c ∈ collectColumn (reflowMin cols).1 (cols.getD i [])
        ↔ (c ∈ cols.getD i [] ∧ (reflowMin cols).1 < c.top))
    ∧ (∀ c ∈ collectColumn (reflowMin cols).1 (cols.getD i []),
        (tildeTilde c.attr, c) ∈ (reflowCollect cols).1)
    ∧ (reflowCollect cols).2.getD i 0
        = columnBottom (cols.getD i [])
          - heightsSum (collectColumn (reflowMin cols).1 (cols.getD i [])) := by
  refine ⟨fun c => collectColumn_mem _ _ c, ?_, ?_⟩
  · intro c hc
    exact collectLoop_mem_rev _ _ 0 cols _ i (by rw [List.length_map]) hi
      (by simpa using hne) c hc
  · unfold reflowCollect
    rw [collectLoop_bottoms _ _ 0 cols _ i (by rw [List.length_map]) hi]
    rw [if_neg (by simpa using hne)]
    congr 1
    rw [List.getD_eq_getElem _ _ (by rw [List.length_map]; exact hi),
      List.getElem_map, List.getD_eq_getElem _ _ hi]

/-- Witness for C3 at column 0 of the spec scenario. -/
theorem collection_candidates_characterized_witness :
    (cellA6 ∈ collectColumn (reflowMin scenarioCols).1 (scenarioCols.getD 0 [])
      ↔ (cellA6 ∈ scenarioCols.getD 0 [] ∧ (reflowMin scenarioCols).1 < cellA6.top))
    ∧ (tildeTilde cellA6.attr, cellA6) ∈ (reflowCollect scenarioCols).1
    ∧ (reflowCollect scenarioCols).2.getD 0 0
        = columnBottom (scenarioCols.getD 0 [])
          - heightsSum (collectColumn (reflowMin scenarioCols).1 (scenarioCols.getD 0 [])) :=
  ⟨(collection_candidates_characterized scenarioCols 0 (by decide) (by decide)).1 cellA6,
   (collection_candidates_characterized scenarioCols 0 (by decide) (by decide)).2.1
     cellA6 (by decide),
   (collection_candidates_characterized scenarioCols 0 (by decide) (by decide)).2.2⟩

/-- Claim C5: on an already balanced column state (no cell of a non-minimum
column has its top strictly above the minimum bottom) a reflow pass collects
an empty candidate pool and changes no column, and a second pass on the
unchanged geometry moves nothing either. The sort function is only required
to map the empty pool to itself, which every engine does. -/
theorem balanced_pass_noop (sortFn : List Int → List Int) (cols : List (List Cell))
    (hs : sortFn [] = [])
    (hbal : ∀ i, i < cols.length → i ≠ (reflowMin cols).2 →
      ∀ c ∈ cols.getD i [], c.top ≤ (reflowMin cols).1) :
    (reflowCollect cols).1 = []
    ∧ reLayoutChildren sortFn cols = cols
    ∧ reLayoutChildren sortFn (reLayoutChildren sortFn cols) = cols := by
  have hcol : collectLoop (reflowMin cols).1 (reflowMin cols).2 0 cols
      (cols.map columnBottom) = ([], cols.map columnBottom) :=
    collectLoop_of_balanced _ _ 0 cols _ (by rw [List.length_map])
      (by intro j hj hne c hc; exact hbal j hj (by simpa using hne) c hc)
  have hentries : (reflowCollect cols).1 = [] := by
    unfold reflowCollect; rw [hcol]
  have hbots : (reflowCollect cols).2 = cols.map columnBottom := by
    unfold reflowCollect; rw [hcol]
  have hre : reLayoutChildren sortFn cols = cols := by
    simp only [reLayoutChildren]
    rw [hentries, hbots]
    simp only [List.map_nil]
    rw [hs]
    simp only [addLoop]
    exact applyFrags_nil_frags cols
  exact ⟨hentries, hre, by rw [hre, hre]⟩

/-- Witness for C5 on a concrete balanced three-column state with the
identity reordering. -/
theorem balanced_pass_noop_witness :
    (reflowCollect balancedCols).1 = []
    ∧ reLayoutChildren (fun l => l) balancedCols = balancedCols
    ∧ reLayoutChildren (fun l => l) (reLayoutChildren (fun l => l) balancedCols)
        = balancedCols :=
  balanced_pass_noop (fun l => l) balancedCols rfl (by decide)

/-- Claim C8: the pre-pass minimum-bottom column never loses an item. No
candidate is collected from it (given that distinct DOM elements back the
cells, modelled as a duplicate-free cell list), so after the pass its
original item sequence is intact and it is at most extended at its end by
re-inserted candidates. -/
theorem min_column_preserved (sortFn : List Int → List Int)
    (cols : List (List Cell)) (hnd : (cols.flatten).Nodup) :
    (∀ p ∈ (reflowCollect cols).1, p.2 ∉ cols.getD (reflowMin cols).2 [])
    ∧ ∃ ext, (reLayoutChildren sortFn cols).getD (reflowMin cols).2 []
        = cols.getD (reflowMin cols).2 [] ++ ext
      ∧ ∀ c ∈ ext, ∃ p ∈ (reflowCollect cols).1, p.2 = c := by
  have hnotmem : ∀ p ∈ (reflowCollect cols).1,
      p.2 ∉ cols.getD (reflowMin cols).2 [] := by
    intro p hp
    obtain ⟨j, hj, hne, hmem, hid⟩ := collectLoop_mem _ _ 0 cols _ p hp
    exact not_mem_getD_of_nodup_flatten hnd (by simpa using hne) hj
      ((collectColumn_mem _ _ _).mp hmem).1
  refine ⟨hnotmem, ?_⟩
  have hcolfix := addLoop_col_fixed (reflowCollect cols).1 (reflowMin cols).2
    (cols.getD (reflowMin cols).2 []) hnotmem
    (sortFn (((reflowCollect cols).1).map (fun p => p.1))) (reflowCollect cols).2
    ⟨cols, cols.map (fun _ => [])⟩ rfl
  have hsub := addLoop_frags_sub (reflowCollect cols).1
    (sortFn (((reflowCollect cols).1).map (fun p => p.1))) (reflowCollect cols).2
    ⟨cols, cols.map (fun _ => [])⟩
    (by intro c hc; rw [flatten_map_nil] at hc; simp at hc)
  have hlens := addLoop_lens (reflowCollect cols).1
    (sortFn (((reflowCollect cols).1).map (fun p => p.1))) (reflowCollect cols).2
    ⟨cols, cols.map (fun _ => [])⟩
  refine ⟨(addLoop (reflowCollect cols).1
      (sortFn (((reflowCollect cols).1).map (fun p => p.1))) (reflowCollect cols).2
      ⟨cols, cols.map (fun _ => [])⟩).1.frags.getD (reflowMin cols).2 [], ?_, ?_⟩
  · simp only [reLayoutChildren]
    rw [applyFrags_getD _ _ (by rw [hlens.1, hlens.2]; simp)]
    rw [hcolfix]
  · intro c hc
    exact hsub c (mem_flatten_of_getD _ _ hc)

/-- Witness for C8 on the spec scenario: the collected candidate with
identifier 6 is not an element of the minimum column. -/
theorem min_column_preserved_witness :
    ((6 : Int), cellA6).2 ∉ scenarioCols.getD (reflowMin scenarioCols).2 [] :=
  (min_column_preserved (fun l => l) scenarioCols (by decide)).1
    (6, cellA6) (by decide)

/-- Membership in the optional refresh or loading child comes from a present
slot. -/
theorem mem_optNodeList {x : ChildNode} {o : Option VNode}
    (h : x ∈ optNodeList o) : ∃ r, o = some r ∧ x = ChildNode.node r := by
  cases o with
  | none => simp [optNodeList] at h
  | some r =>
    simp [optNodeList] at h
    exact ⟨r, rfl, h⟩

/-- Claim C6: the children _createChildren builds are exactly: the last
refresh slot when one exists, then the headers in order, then the other
passthrough vnodes, then the single column-grid container holding exactly
the cell-tagged vnodes, then the footers, then the last loading slot; and
every vnode in the grid list carries the component tag cell. -/
theorem children_fixed_order (slots : List VNode) :
    createChildren slots =
      optNodeList (lastWrite (slots.filter isRefreshNode) none)
        ++ ((slots.filter isHeaderNode).map ChildNode.node)
        ++ ((slots.filter isOtherNode).map ChildNode.node)
        ++ [ChildNode.grid (slots.filter isCellNode)]
        ++ ((slots.filter isFooterNode).map ChildNode.node)
        ++ optNodeList (lastWrite (slots.filter isLoadingNode) none)
    ∧ ∀ v ∈ slots.filter isCellNode, nodeTag v = "cell" := by
  refine ⟨createChildren_spec slots, ?_⟩
  intro v hv
  have h := (List.mem_filter.mp hv).2
  simp [isCellNode, Bool.and_eq_true] at h
  exact h.2

/-- Claim C10: a slot vnode with a falsy tag or no componentOptions is
dropped by the filter guard and appears in none of the emitted children: it
is not one of the plain children and not inside the column grid. -/
theorem untagged_nodes_excluded (slots : List VNode) (v : VNode)
    (h : jsFalsyTag v.tag = true ∨ v.componentOptions = none) :
    ChildNode.node v ∉ createChildren slots
    ∧ ∀ cs, ChildNode.grid cs ∈ createChildren slots → v ∉ cs := by
  have hk : keptNode v = false := by simp [keptNode, h]
  have hnotpred : ∀ (p : VNode → Bool),
      (∀ w, p w = true → keptNode w = true) → ∀ (l : List VNode), v ∉ l.filter p := by
    intro p hpk l hvl
    have h2 := hpk v (List.mem_filter.mp hvl).2
    rw [h2] at hk
    exact absurd hk (by simp)
  constructor
  · intro hmem
    rw [createChildren_spec] at hmem
    simp only [List.mem_append] at hmem
    rcases hmem with ((((h1 | h1) | h1) | h1) | h1) | h1
    · obtain ⟨r, hw, hx⟩ := mem_optNodeList h1
      injection hx with hx
      rcases lastWrite_mem _ _ r hw with hr | hr
      · rw [← hx] at hr
        exact hnotpred isRefreshNode (fun w => kept_of_isRefreshNode) _ hr
      · exact absurd hr (by simp)
    · obtain ⟨w, hwf, hwx⟩ := List.mem_map.mp h1
      injection hwx with hwx
      rw [hwx] at hwf
      exact hnotpred isHeaderNode (fun w => kept_of_isHeaderNode) _ hwf
    · obtain ⟨w, hwf, hwx⟩ := List.mem_map.mp h1
      injection hwx with hwx
      rw [hwx] at hwf
      exact hnotpred isOtherNode (fun w => kept_of_isOtherNode) _ hwf
    · simp at h1
    · obtain ⟨w, hwf, hwx⟩ := List.mem_map.mp h1
      injection hwx with hwx
      rw [hwx] at hwf
      exact hnotpred isFooterNode (fun w => kept_of_isFooterNode) _ hwf
    · obtain ⟨r, hw, hx⟩ := mem_optNodeList h1
      injection hx with hx
      rcases lastWrite_mem _ _ r hw with hr | hr
      · rw [← hx] at hr
        exact hnotpred isLoadingNode (fun w => kept_of_isLoadingNode) _ hr
      · exact absurd hr (by simp)
  · intro cs hcs hvcs
    rw [createChildren_spec] at hcs
    simp only [List.mem_append] at hcs
    rcases hcs with ((((h1 | h1) | h1) | h1) | h1) | h1
    · obtain ⟨r, hw, hx⟩ := mem_optNodeList h1
      simp at hx
    · obtain ⟨w, hwf, hwx⟩ := List.mem_map.mp h1
      simp at hwx
    · obtain ⟨w, hwf, hwx⟩ := List.mem_map.mp h1
      simp at hwx
    · have hcseq : cs = slots.filter isCellNode := by
        simp at h1
        exact h1
      rw [hcseq] at hvcs
      exact hnotpred isCellNode (fun w => kept_of_isCellNode) _ hvcs
    · obtain ⟨w, hwf, hwx⟩ := List.mem_map.mp h1
      simp at hwx
    · obtain ⟨r, hw, hx⟩ := mem_optNodeList h1
      simp at hx

/-- Witness for C10: the tagless vnode of the demo slot sequence appears
nowhere in the children built from it. -/
theorem untagged_nodes_excluded_witness :
    ChildNode.node slotBad ∉ createChildren demoSlots :=
  (untagged_nodes_excluded demoSlots slotBad (Or.inl rfl)).1

/-- Witness for C6 on the demo slot sequence: the cell slot in the grid list
carries the component tag cell. -/
theorem children_fixed_order_witness : nodeTag slotCell = "cell" :=
  (children_fixed_order demoSlots).2 slotCell (by decide)

/-- Witness for C7: the validator accepts the number 5 through the
positive-parse clause of the characterization. -/
theorem columnGap_validator_spec_witness :
    columnGapValidator (JSValue.num 5) = true :=
  (columnGap_validator_spec.2.2.2.2.2 (JSValue.num 5)).mpr
    (Or.inr (Or.inr ⟨5, rfl, by decide⟩))


end Waterfall
